import Mathlib

/-!
Verification development for the numeric core of the B2912A SMU automated
test program (GUIv0.8).  The definitions below are shallow embeddings of
the Python functions in utils/currgen.py and app.py: machine floats are
modelled by rational numbers (with an explicit value type for the IEEE
non-finite results that numpy produces instead of raising), and the
while-loop of the waveform generator is modelled by a fuel-indexed step
function so that both its terminating and its non-terminating behaviour
can be stated.
-/

namespace SMU

/-- Embedding of the Python expression `10 ** magnitude` used in
`WaveGen.__init__` (utils/currgen.py line 12): an integer power of ten,
as an exact rational. -/
def pow10 : ℤ → ℚ
  | Int.ofNat n => (10 : ℚ) ^ n
  | Int.negSucc n => 1 / (10 : ℚ) ^ (n + 1)

/-- Embedding of the Python builtin `abs` on rationals (kernel-reducible,
unlike the lattice absolute value). -/
def qabs (q : ℚ) : ℚ := if q < 0 then -q else q

theorem qabs_eq_abs (q : ℚ) : qabs q = |q| := by
  simp only [qabs]
  split
  · rename_i h
    exact (abs_of_neg h).symm
  · rename_i h
    exact (abs_of_nonneg (le_of_not_lt h)).symm

/-- Embedding of `WaveGen._check_safety` (utils/currgen.py lines 15-29):
scale the value by the magnitude `10 ** e`, return `false` (unsafe) when
the absolute scaled value is at least the threshold, `true` otherwise. -/
def check_safety (value : ℚ) (e : ℤ) (threshold : ℚ) : Bool :=
  let scaled := value * pow10 e
  if qabs scaled ≥ threshold then false else true

/-- C7: the safety check returns safe exactly when `|value * 10^e| < threshold`;
a scaled magnitude equal to the threshold is unsafe. -/
theorem c7_check_safety_iff (v : ℚ) (e : ℤ) (t : ℚ) :
    (check_safety v e t = true ↔ |v * pow10 e| < t) ∧
    (|v * pow10 e| = t → check_safety v e t = false) := by
  constructor
  · simp only [check_safety, qabs_eq_abs]
    split
    · rename_i h
      simp only [Bool.false_eq_true, false_iff, not_lt]
      exact h
    · rename_i h
      simp only [true_iff]
      exact lt_of_not_ge h
  · intro h
    simp only [check_safety, qabs_eq_abs]
    rw [if_pos (le_of_eq h.symm)]

/-- Witness for C7 at a concrete input: `1e6` at magnitude `-6` scales to
exactly the default threshold `1` and is reported unsafe. -/
theorem c7_check_safety_iff_witness :
    |(1000000 : ℚ) * pow10 (-6)| = 1 ∧ check_safety 1000000 (-6) 1 = false := by
  have h : |(1000000 : ℚ) * pow10 (-6)| = 1 := by
    have hp : pow10 (-6) = 1 / (10 : ℚ) ^ 6 := rfl
    rw [hp, show (1000000 : ℚ) * (1 / 10 ^ 6) = 1 by norm_num, abs_one]
  exact ⟨h, (c7_check_safety_iff 1000000 (-6) 1).2 h⟩

/-- Models a numpy slice assignment `arr[a:b] = v` on an array viewed as a
function from indices to values.  All assignments performed by the loop of
`generate_square_wave` stay inside `[0, length)`, so the pure-function view
is faithful; materialisation to a list of the correct length happens in
`generate_square_wave`. -/
def setSeg (f : ℕ → ℚ) (a b : ℕ) (v : ℚ) : ℕ → ℚ :=
  fun j => if a ≤ j ∧ j < b then v else f j

/-- Fuel-indexed embedding of the while-loop of `WaveGen.generate_square_wave`
(utils/currgen.py lines 92-105).  The loop state is the array `f` and the
write index `i`; `none` means the fuel ran out before the loop exited, so
`(∀ fuel, ... = none)` states that the loop never terminates. -/
def waveLoop (hv lv : ℚ) (len period hd : ℕ) :
    ℕ → (ℕ → ℚ) → ℕ → Option (ℕ → ℚ)
  | 0, _, _ => none
  | fuel + 1, f, i =>
    if i < len then
      if i + hd ≤ len then
        if (i + hd) + (period - hd) ≤ len then
          waveLoop hv lv len period hd fuel
            (setSeg (setSeg f i (i + hd) hv) (i + hd) ((i + hd) + (period - hd)) lv)
            ((i + hd) + (period - hd))
        else some (setSeg (setSeg f i (i + hd) hv) (i + hd) len lv)
      else some (setSeg f i len hv)
    else some f

/-- The high-segment length `int(period * duty_cycle)` of utils/currgen.py
line 89; for a duty cycle in `[0,1]` the Python truncation towards zero
equals the floor. -/
def waveHd (period : ℕ) (dc : ℚ) : ℕ := (⌊(period : ℚ) * dc⌋).toNat

/-- Embedding of `WaveGen.generate_square_wave` (utils/currgen.py lines
62-107): magnitude scaling of the high and low values (lines 82-83), the
zero-initialised array of line 86, and the while-loop, run with fuel
`length + 1` (enough for any `period ≥ 1`).  The safety checks of lines
78-79 are computed by `generate_checks`; the Python function discards their
results.  A `none` result models a non-terminating loop. -/
def generate_square_wave (length : ℕ) (hv lv : ℚ) (period : ℕ) (dc : ℚ)
    (init : ℕ) (magExp : ℤ) : Option (List ℚ) :=
  let mag := pow10 magExp
  (waveLoop (hv * mag) (lv * mag) length period (waveHd period dc)
      (length + 1) (fun _ => 0) init).map
    (fun f => (List.range length).map f)

/-- The two safety-check calls of `WaveGen.generate_square_wave`
(utils/currgen.py lines 78-79), made on the unscaled high and low values
before the magnitude is applied. -/
def generate_checks (hv lv : ℚ) (magExp : ℤ) (threshold : ℚ) : Bool × Bool :=
  (check_safety hv magExp threshold, check_safety lv magExp threshold)

/-- The call of `generate_square_wave` made for each current level of a
test run (app.py lines 242-247 in auto mode; lines 605-610 and 620-625
pass the same arguments in manual mode): the array length is
`period * repeats` and the initial-zero count is passed as `init_time`. -/
def auto_square_wave (period repeats initial_zero : ℕ) (value dc : ℚ)
    (magExp : ℤ) : Option (List ℚ) :=
  generate_square_wave (period * repeats) value (-value) period dc
    initial_zero magExp

theorem waveLoop_isSome (hv lv : ℚ) (len period hd : ℕ)
    (hhd : hd ≤ period) :
    ∀ fuel i f, len ≤ i + fuel * period →
      (waveLoop hv lv len period hd (fuel + 1) f i).isSome = true := by
  intro fuel
  induction fuel with
  | zero =>
    intro i f hle
    simp only [Nat.zero_mul, Nat.add_zero] at hle
    simp only [waveLoop, if_neg (Nat.not_lt.mpr hle), Option.isSome_some]
  | succ n ih =>
    intro i f hle
    simp only [waveLoop]
    split
    · split
      · split
        · rename_i h1 h2 h3
          have hstep : (i + hd) + (period - hd) = i + period := by omega
          rw [hstep]
          exact ih (i + period) _ (by
            have : i + (n + 1) * period = (i + period) + n * period := by ring
            omega)
        · exact Option.isSome_some
      · exact Option.isSome_some
    · exact Option.isSome_some

theorem waveLoop_zero_period (hv lv : ℚ) (len : ℕ) :
    ∀ fuel i f, i < len → waveLoop hv lv len 0 0 fuel f i = none := by
  intro fuel
  induction fuel with
  | zero => intro i f _; rfl
  | succ n ih =>
    intro i f hi
    simp only [waveLoop, if_pos hi, Nat.add_zero, Nat.sub_zero,
      if_pos (Nat.le_of_lt hi)]
    exact ih i _ hi

theorem setSeg_eq_of_mem (f : ℕ → ℚ) (a b : ℕ) (v : ℚ) {j : ℕ}
    (h1 : a ≤ j) (h2 : j < b) : setSeg f a b v j = v := by
  simp only [setSeg, if_pos (And.intro h1 h2)]

theorem setSeg_eq_of_not_mem (f : ℕ → ℚ) (a b : ℕ) (v : ℚ) {j : ℕ}
    (h : j < a ∨ b ≤ j) : setSeg f a b v j = f j := by
  simp only [setSeg]
  rw [if_neg]
  intro hc
  rcases h with h | h
  · exact absurd hc.1 (Nat.not_le.mpr h)
  · exact absurd hc.2 (Nat.not_lt.mpr h)

/-- Pointwise description of the loop output: indices below the entry index
or at or beyond the array length keep their old values, and every written
index `j` holds the high value when `(j - i) % period < hd` and the low
value otherwise. -/
theorem waveLoop_spec (hv lv : ℚ) (len period hd : ℕ)
    (hp : 1 ≤ period) (hhd : hd ≤ period) :
    ∀ fuel f i out, waveLoop hv lv len period hd fuel f i = some out →
      (∀ j, j < i ∨ len ≤ j → out j = f j) ∧
      (∀ j, i ≤ j → j < len →
        out j = if (j - i) % period < hd then hv else lv) := by
  intro fuel
  induction fuel with
  | zero => intro f i out h; exact absurd h (by simp [waveLoop])
  | succ n ih =>
    intro f i out h
    simp only [waveLoop] at h
    by_cases hi : i < len
    · rw [if_pos hi] at h
      by_cases hfit : i + hd ≤ len
      · rw [if_pos hfit] at h
        by_cases hlow : (i + hd) + (period - hd) ≤ len
        · -- full cycle written, loop continues at i + period
          rw [if_pos hlow] at h
          have hstep : (i + hd) + (period - hd) = i + period := by omega
          obtain ⟨hold, hwrite⟩ := ih _ _ _ h
          have hnext : i + period ≤ len := by omega
          constructor
          · intro j hj
            have hj2 : j < (i + hd) + (period - hd) ∨ len ≤ j := by omega
            rw [hold j (by omega)]
            rw [setSeg_eq_of_not_mem _ _ _ _ (by omega),
              setSeg_eq_of_not_mem _ _ _ _ (by omega)]
          · intro j hij hjlen
            by_cases hcur : j < i + period
            · -- j lies inside the cycle written this iteration
              rw [hold j (by omega)]
              have hsub : j - i < period := by omega
              rw [Nat.mod_eq_of_lt hsub]
              by_cases hhi : j < i + hd
              · rw [setSeg_eq_of_not_mem _ _ _ _ (by omega),
                  setSeg_eq_of_mem _ _ _ _ (by omega) (by omega),
                  if_pos (by omega)]
              · rw [setSeg_eq_of_mem _ _ _ _ (by omega) (by omega),
                  if_neg (by omega)]
            · -- j is handled by a later iteration
              have := hwrite j (by omega) hjlen
              rw [hstep] at this
              rw [this]
              have hmod : (j - i) % period = (j - (i + period)) % period := by
                have hrw : j - i = (j - (i + period)) + period := by omega
                rw [hrw, Nat.add_mod_right]
              rw [hmod]
        · -- low segment truncated to [i + hd, len), loop stops
          rw [if_neg hlow] at h
          injection h with h
          subst h
          constructor
          · intro j hj
            rw [setSeg_eq_of_not_mem _ _ _ _ (by omega),
              setSeg_eq_of_not_mem _ _ _ _ (by omega)]
          · intro j hij hjlen
            have hsub : j - i < period := by omega
            rw [Nat.mod_eq_of_lt hsub]
            by_cases hhi : j < i + hd
            · rw [setSeg_eq_of_not_mem _ _ _ _ (by omega),
                setSeg_eq_of_mem _ _ _ _ (by omega) (by omega),
                if_pos (by omega)]
            · rw [setSeg_eq_of_mem _ _ _ _ (by omega) (by omega),
                if_neg (by omega)]
      · -- high segment truncated to [i, len), loop stops
        rw [if_neg hfit] at h
        injection h with h
        subst h
        constructor
        · intro j hj
          rw [setSeg_eq_of_not_mem _ _ _ _ (by omega)]
        · intro j hij hjlen
          have hsub : j - i < hd := by omega
          rw [Nat.mod_eq_of_lt (by omega), if_pos hsub]
          exact setSeg_eq_of_mem _ _ _ _ (by omega) (by omega)
    · rw [if_neg hi] at h
      injection h with h
      subst h
      exact ⟨fun j _ => rfl, fun j hij hjlen => absurd (by omega : i < len) hi⟩

theorem getD_map_range (f : ℕ → ℚ) (n j : ℕ) (hj : j < n) :
    ((List.range n).map f).getD j 0 = f j := by
  rw [List.getD_eq_getElem?_getD, List.getElem?_map, List.getElem?_range hj]
  rfl

theorem waveHd_le (period : ℕ) (dc : ℚ) (h1 : dc ≤ 1) :
    waveHd period dc ≤ period := by
  have hmul : (period : ℚ) * dc ≤ (period : ℚ) :=
    mul_le_of_le_one_right (by positivity) h1
  have hfl : ⌊(period : ℚ) * dc⌋ ≤ (period : ℤ) := by
    have := Int.floor_le_floor hmul
    rwa [Int.floor_natCast] at this
  calc waveHd period dc = (⌊(period : ℚ) * dc⌋).toNat := rfl
    _ ≤ ((period : ℤ)).toNat := Int.toNat_le_toNat hfl
    _ = period := Int.toNat_natCast period

theorem waveHd_zero (dc : ℚ) : waveHd 0 dc = 0 := by
  simp [waveHd]

/-- Full description of `generate_square_wave` for `period ≥ 1` and a duty
cycle in `[0,1]`: the loop terminates, the array has exactly `length`
entries, and entry `j` is zero below `init_time`, the scaled high value
when `(j - init) % period` falls inside the high segment, and the scaled
low value otherwise. -/
theorem generate_square_wave_spec (length : ℕ) (hv lv : ℚ) (period : ℕ)
    (dc : ℚ) (init : ℕ) (magExp : ℤ)
    (hp : 1 ≤ period) (h1 : dc ≤ 1) :
    ∃ l, generate_square_wave length hv lv period dc init magExp = some l ∧
      l.length = length ∧
      ∀ j, j < length →
        l.getD j 0 = if j < init then 0
          else if (j - init) % period < waveHd period dc then hv * pow10 magExp
          else lv * pow10 magExp := by
  have hfuel : length ≤ init + length * period := by
    have : length * 1 ≤ length * period := Nat.mul_le_mul_left length hp
    omega
  have hsome := waveLoop_isSome (hv * pow10 magExp) (lv * pow10 magExp)
    length period (waveHd period dc) (waveHd_le period dc h1) length init
    (fun _ => 0) hfuel
  obtain ⟨f, hf⟩ := Option.isSome_iff_exists.mp hsome
  obtain ⟨hold, hwrite⟩ := waveLoop_spec (hv * pow10 magExp)
    (lv * pow10 magExp) length period (waveHd period dc) hp
    (waveHd_le period dc h1) (length + 1) (fun _ => 0) init f hf
  refine ⟨(List.range length).map f, ?_, ?_, ?_⟩
  · simp only [generate_square_wave]
    rw [hf]
    rfl
  · simp only [List.length_map, List.length_range]
  · intro j hj
    rw [getD_map_range f length j hj]
    by_cases hinit : j < init
    · rw [if_pos hinit, hold j (Or.inl hinit)]
    · rw [if_neg hinit, hwrite j (Nat.le_of_not_lt hinit) hj]

/-- C10: with `period ≥ 1` the generator loop terminates (each full
iteration advances the write index by exactly `period` samples), but for
`period = 0` — accepted by the period input, whose minimum is 0 — with
`init_time < length` the while-loop runs forever: it exhausts any amount
of fuel, and the generator embedding returns `none`. -/
theorem c10_wavegen_termination :
    (∀ (length : ℕ) (hv lv : ℚ) (period : ℕ) (dc : ℚ) (init : ℕ)
      (magExp : ℤ), 1 ≤ period → 0 ≤ dc → dc ≤ 1 →
      (generate_square_wave length hv lv period dc init magExp).isSome
        = true) ∧
    (∀ (length : ℕ) (hv lv dc : ℚ) (init : ℕ) (magExp : ℤ), init < length →
      generate_square_wave length hv lv 0 dc init magExp = none ∧
      ∀ fuel f, waveLoop (hv * pow10 magExp) (lv * pow10 magExp) length 0
        (waveHd 0 dc) fuel f init = none) := by
  constructor
  · intro length hv lv period dc init magExp hp _h0 h1
    obtain ⟨l, hl, -, -⟩ :=
      generate_square_wave_spec length hv lv period dc init magExp hp h1
    rw [hl]
    exact Option.isSome_some
  · intro length hv lv dc init magExp hinit
    have hloop : ∀ fuel f, waveLoop (hv * pow10 magExp) (lv * pow10 magExp)
        length 0 (waveHd 0 dc) fuel f init = none := by
      intro fuel f
      rw [waveHd_zero]
      exact waveLoop_zero_period _ _ length fuel init f hinit
    refine ⟨?_, hloop⟩
    simp only [generate_square_wave]
    rw [hloop]
    rfl

/-- Witness for C10: with period 2 the generator yields an array; with
period 0 and a nonempty window it diverges. -/
theorem c10_wavegen_termination_witness :
    ((1 : ℕ) ≤ 2 ∧ ((0 : ℚ) ≤ 1/2) ∧ ((1 : ℚ)/2 ≤ 1) ∧
      (generate_square_wave 5 1 (-1) 2 (1/2) 1 0).isSome = true) ∧
    ((0 : ℕ) < 1 ∧ generate_square_wave 1 1 (-1) 0 (1/2) 0 0 = none) :=
  ⟨⟨by omega, by norm_num, by norm_num,
      c10_wavegen_termination.1 5 1 (-1) 2 (1/2) 1 0 (by omega) (by norm_num)
        (by norm_num)⟩,
    ⟨Nat.zero_lt_one,
      (c10_wavegen_termination.2 1 1 (-1) (1/2) 0 0 Nat.zero_lt_one).1⟩⟩

/-- C1 counterexample: at `period = 2`, `repeats = 1`, `initial_zero = 1`
the forcing sequence built for a test run has 2 samples, not
`period * repeats + initial_zero = 3` — the call passes
`length = period * repeats` and the initial-zero prefix consumes part of
those samples. -/
theorem c1_counterexample :
    (auto_square_wave 2 1 1 1 (1/2) 0).map List.length = some 2 ∧
      (2 : ℕ) ≠ 2 * 1 + 1 := by
  obtain ⟨l, hl, hlen, -⟩ :=
    generate_square_wave_spec (2 * 1) 1 (-1) 2 (1/2) 1 0 (by omega)
      (by norm_num)
  constructor
  · rw [auto_square_wave, hl]
    simp [hlen]
  · omega

/-- C1 amended: for every `period ≥ 1`, duty cycle in `[0,1]` and
`repeats`, the forcing-current sequence produced for a test run has length
`period * repeats`; the initial-zero prefix lies inside those samples
instead of adding to them. -/
theorem c1_sequence_length (period repeats initial_zero : ℕ)
    (value dc : ℚ) (magExp : ℤ) (hp : 1 ≤ period) (_h0 : 0 ≤ dc)
    (h1 : dc ≤ 1) :
    (auto_square_wave period repeats initial_zero value dc magExp).map
      List.length = some (period * repeats) := by
  obtain ⟨l, hl, hlen, -⟩ :=
    generate_square_wave_spec (period * repeats) value (-value) period dc
      initial_zero magExp hp h1
  rw [auto_square_wave, hl]
  simp [hlen]

/-- Witness for the amended C1 at `period = 2`, `repeats = 3`,
`initial_zero = 1`. -/
theorem c1_sequence_length_witness :
    (1 : ℕ) ≤ 2 ∧ ((0 : ℚ) ≤ 1/2) ∧ ((1 : ℚ)/2 ≤ 1) ∧
      (auto_square_wave 2 3 1 1 (1/2) 0).map List.length = some (2 * 3) :=
  ⟨by omega, by norm_num, by norm_num,
    c1_sequence_length 2 3 1 1 (1/2) 0 (by omega) (by norm_num) (by norm_num)⟩

/-- C8: the generated square wave is zero on `[0, init_time)`; after that
every index `j` of a full or truncated cycle holds the scaled high value
for the first `⌊period * duty_cycle⌋` offsets of its cycle and the scaled
low value for the remaining `period - ⌊period * duty_cycle⌋` offsets; a
segment reaching past `length` is cut at `length` and nothing wraps into a
new cycle (the cycle-offset formula holds up to the last index). -/
theorem c8_square_wave_shape (length : ℕ) (hv lv : ℚ) (period : ℕ)
    (dc : ℚ) (init : ℕ) (magExp : ℤ) (hp : 1 ≤ period) (_h0 : 0 ≤ dc)
    (h1 : dc ≤ 1) :
    (generate_square_wave length hv lv period dc init magExp).isSome
        = true ∧
    ∀ l, generate_square_wave length hv lv period dc init magExp = some l →
      l.length = length ∧
      ∀ j, j < length →
        l.getD j 0 = if j < init then 0
          else if (j - init) % period < waveHd period dc
            then hv * pow10 magExp
          else lv * pow10 magExp := by
  obtain ⟨l, hl, hlen, hval⟩ :=
    generate_square_wave_spec length hv lv period dc init magExp hp h1
  refine ⟨by rw [hl]; exact Option.isSome_some, ?_⟩
  intro l' hl'
  rw [hl] at hl'
  injection hl' with hl'
  subst hl'
  exact ⟨hlen, hval⟩

/-- Witness for C8 at `length = 5`, `period = 2`, `duty_cycle = 1/2`,
`init_time = 1`. -/
theorem c8_square_wave_shape_witness :
    (1 : ℕ) ≤ 2 ∧ ((0 : ℚ) ≤ 1/2) ∧ ((1 : ℚ)/2 ≤ 1) ∧
      (generate_square_wave 5 1 (-1) 2 (1/2) 1 0).isSome = true :=
  ⟨by omega, by norm_num, by norm_num,
    (c8_square_wave_shape 5 1 (-1) 2 (1/2) 1 0 (by omega) (by norm_num)
      (by norm_num)).1⟩

def insertSorted (x : ℚ) : List ℚ → List ℚ
  | [] => [x]
  | y :: ys => if x ≤ y then x :: y :: ys else y :: insertSorted x ys

def sortList : List ℚ → List ℚ
  | [] => []
  | x :: xs => insertSorted x (sortList xs)

/-- Embedding of `np.median` as used by `remove_outliers_amd`: sort the
data ascending and take the middle entry for odd length, the mean of the
two middle entries for even length.  Used only on nonempty lists (numpy
yields NaN on empty input, which this model does not represent). -/
def npMedian (l : List ℚ) : ℚ :=
  let s := sortList l
  let n := l.length
  if n % 2 = 1 then s.getD (n / 2) 0
  else (s.getD (n / 2 - 1) 0 + s.getD (n / 2) 0) / 2

/-- Embedding of `remove_outliers_amd` (app.py lines 53-69): keep the
values whose absolute deviation from the median is at most `threshold`
times the median of the absolute deviations.  The default threshold is
`1.6 = 8/5`. -/
def remove_outliers_amd (data : List ℚ) (threshold : ℚ) : List ℚ :=
  let median := npMedian data
  let deviations := data.map (fun x => qabs (x - median))
  let amd := npMedian deviations
  data.filter (fun x => qabs (x - median) ≤ threshold * amd)

/-- C2 counterexample: on `[1, 1, 1, 100]` the median absolute deviation
is `0`, yet `100` is rejected by the default filter — so a zero MAD does
not make all values pass. -/
theorem c2_counterexample :
    npMedian (([1, 1, 1, 100] : List ℚ).map
        (fun x => qabs (x - npMedian [1, 1, 1, 100]))) = 0 ∧
      remove_outliers_amd ([1, 1, 1, 100] : List ℚ) (8/5) = [1, 1, 1] := by
  norm_num [remove_outliers_amd, npMedian, sortList, insertSorted, qabs,
    List.filter]

/-- C2 amended: the default filter keeps exactly the values `x` with
`|x - median| ≤ 1.6 * mad`; when `mad = 0` the values kept are exactly the
values equal to the median (so a value different from the median is
rejected, not retained). -/
theorem c2_outlier_filter (data : List ℚ) (_h : data ≠ []) :
    (∀ x, x ∈ remove_outliers_amd data (8/5) ↔
      x ∈ data ∧ |x - npMedian data| ≤
        (8/5) * npMedian (data.map (fun y => |y - npMedian data|))) ∧
    (npMedian (data.map (fun y => |y - npMedian data|)) = 0 →
      ∀ x, x ∈ remove_outliers_amd data (8/5) ↔
        x ∈ data ∧ x = npMedian data) := by
  have hmap : data.map (fun y => qabs (y - npMedian data))
      = data.map (fun y => |y - npMedian data|) := by
    simp only [qabs_eq_abs]
  have hmem : ∀ x, x ∈ remove_outliers_amd data (8/5) ↔
      x ∈ data ∧ |x - npMedian data| ≤
        (8/5) * npMedian (data.map (fun y => |y - npMedian data|)) := by
    intro x
    simp only [remove_outliers_amd, hmap, List.mem_filter,
      decide_eq_true_eq, qabs_eq_abs]
  refine ⟨hmem, ?_⟩
  intro hmad x
  rw [hmem x, hmad]
  constructor
  · rintro ⟨hx, hle⟩
    refine ⟨hx, ?_⟩
    have : |x - npMedian data| ≤ 0 := by linarith
    have := abs_nonpos_iff.mp this
    linarith [sub_eq_zero.mp this]
  · rintro ⟨hx, heq⟩
    refine ⟨hx, ?_⟩
    rw [heq]
    simp

/-- Witness for the amended C2 on the spec example `[2, 2, 2, 2]`. -/
theorem c2_outlier_filter_witness :
    ([2, 2, 2, 2] : List ℚ) ≠ [] ∧
      ((2 : ℚ) ∈ remove_outliers_amd ([2, 2, 2, 2] : List ℚ) (8/5) ↔
        (2 : ℚ) ∈ ([2, 2, 2, 2] : List ℚ) ∧
          |(2 : ℚ) - npMedian [2, 2, 2, 2]| ≤
            (8/5) * npMedian (([2, 2, 2, 2] : List ℚ).map
              (fun y => |y - npMedian [2, 2, 2, 2]|))) :=
  ⟨by simp, (c2_outlier_filter [2, 2, 2, 2] (by simp)).1 2⟩

/-- Value produced by a numpy float computation: a finite rational, a
signed infinity, or NaN.  The type has no error alternative because the
embedded computations raise none. -/
inductive NpVal where
  | fin (q : ℚ)
  | posInf
  | negInf
  | nan
deriving DecidableEq

/-- Numpy float division: division by zero yields a signed infinity (NaN
for `0/0`) together with a runtime warning — it raises no exception. -/
def npDiv (a b : ℚ) : NpVal :=
  if b = 0 then
    if 0 < a then NpVal.posInf else if a < 0 then NpVal.negInf else NpVal.nan
  else NpVal.fin (a / b)

/-- Embedding of `pandas.Series.mean`: sum divided by length.  Used only on nonempty
lists (pandas yields NaN on an empty slice, not represented here). -/
def qmean (l : List ℚ) : ℚ := l.sum / (l.length : ℚ)

/-- Mean of the positional slice `[a, b)` of a series, as in
`df[col][a:b].mean()`. -/
def sliceMean (l : List ℚ) (a b : ℕ) : ℚ := qmean ((l.drop a).take (b - a))

/-- The `Volt_corrected` computation (app.py lines 650-653; lines 688-691
per current level in auto mode): with
`reverse_p = initial_zero + int(period * duty_cycle)`, half the difference
between the mean voltage over `[initial_zero, reverse_p)` and the mean
voltage over `[reverse_p, initial_zero + period)`. -/
def voltCorrected (volts : List ℚ) (initial_zero period : ℕ) (dc : ℚ) : ℚ :=
  let reverse_p := initial_zero + waveHd period dc
  (sliceMean volts initial_zero reverse_p
    - sliceMean volts reverse_p (initial_zero + period)) / 2

/-- The `Avg_curr` computation (app.py line 654; line 692 in auto mode):
mean of the absolute currents over the whole series. -/
def avgCurr (currs : List ℚ) : ℚ := qmean (currs.map qabs)

/-- The `Cal_V/I` computation (app.py line 655; line 694 in auto mode): a
plain numpy float division of the corrected voltage by the average
current, with no zero check. -/
def calVoverI (volts currs : List ℚ) (initial_zero period : ℕ)
    (dc : ℚ) : NpVal :=
  npDiv (voltCorrected volts initial_zero period dc) (avgCurr currs)

/-- Error taxonomy of spec section 7, for the spec-modelled definitions. -/
inductive ArithmeticDomainError where
  | zeroAverageCurrent
  | circularGeometryDomain
deriving DecidableEq

/-- Modelled from the spec: the ReversalAverager of spec sections 4.4 and
7 — `ratio = correctedVoltage / averageCurrent`, failing with
`ArithmeticDomainError` when `averageCurrent == 0` — stated over the same
window arithmetic as the code, for comparison with `calVoverI`. -/
def specReversalVoverI (volts currs : List ℚ) (initial_zero period : ℕ)
    (dc : ℚ) : Except ArithmeticDomainError ℚ :=
  if avgCurr currs = 0 then
    Except.error ArithmeticDomainError.zeroAverageCurrent
  else Except.ok (voltCorrected volts initial_zero period dc / avgCurr currs)

/-- C3 counterexample: a series with voltages `[1, -1]` and currents
`[0, 0]` has zero average current; the code produces the numpy value
`+inf` — a value, not an `ArithmeticDomainError` — while the spec-modelled
averager fails. -/
theorem c3_counterexample :
    calVoverI [1, -1] [0, 0] 0 2 (1/2) = NpVal.posInf ∧
      specReversalVoverI [1, -1] [0, 0] 0 2 (1/2)
        = Except.error ArithmeticDomainError.zeroAverageCurrent := by
  have hhd : waveHd 2 (1/2) = 1 := by
    rw [waveHd, show ((2 : ℕ) : ℚ) * (1/2) = 1 by norm_num, Int.floor_one]
    rfl
  constructor
  · norm_num [calVoverI, npDiv, voltCorrected, avgCurr, sliceMean, qmean,
      qabs, hhd]
  · norm_num [specReversalVoverI, avgCurr, qmean, qabs]

/-- C3 amended: the ratio step divides the corrected voltage by
`mean(|current|)` with no zero check: a nonzero average current gives the
finite quotient, and a zero average current gives a signed infinity or NaN
(numpy float semantics) instead of raising an error. -/
theorem c3_ratio_division (volts currs : List ℚ) (initial_zero period : ℕ)
    (dc : ℚ) (_h : currs ≠ []) :
    (avgCurr currs ≠ 0 →
      calVoverI volts currs initial_zero period dc
        = NpVal.fin (voltCorrected volts initial_zero period dc
            / avgCurr currs)) ∧
    (avgCurr currs = 0 →
      calVoverI volts currs initial_zero period dc
        = if 0 < voltCorrected volts initial_zero period dc then NpVal.posInf
          else if voltCorrected volts initial_zero period dc < 0
            then NpVal.negInf
          else NpVal.nan) := by
  constructor
  · intro hne
    simp only [calVoverI, npDiv, if_neg hne]
  · intro heq
    simp only [calVoverI, npDiv, if_pos heq]

/-- Witness for the amended C3 on a series with unit currents. -/
theorem c3_ratio_division_witness :
    ([1, 1] : List ℚ) ≠ [] ∧ avgCurr [1, 1] ≠ 0 ∧
      calVoverI [1, -1] [1, 1] 0 2 (1/2)
        = NpVal.fin (voltCorrected [1, -1] 0 2 (1/2) / avgCurr [1, 1]) :=
  ⟨by simp, by norm_num [avgCurr, qmean, qabs],
    (c3_ratio_division [1, -1] [1, 1] 0 2 (1/2) (by simp)).1
      (by norm_num [avgCurr, qmean, qabs])⟩

/-- Value of a numpy float computation whose payload is a real number
(the correction-factor formulas use transcendental functions). -/
inductive NpR where
  | fin (x : ℝ)
  | posInf
  | negInf
  | nan

/-- Numpy real division, as `npDiv`. -/
noncomputable def npRDiv (a b : ℝ) : NpR :=
  if b = 0 then
    if 0 < a then NpR.posInf else if a < 0 then NpR.negInf else NpR.nan
  else NpR.fin (a / b)

/-- Embedding of `np.log` on a numpy value: a positive finite argument gives the real
logarithm, zero gives `-inf`, and a negative argument gives NaN with a
runtime warning — not an exception; `inf` gives `inf`. -/
noncomputable def npRLog : NpR → NpR
  | NpR.fin x =>
    if 0 < x then NpR.fin (Real.log x)
    else if x = 0 then NpR.negInf
    else NpR.nan
  | NpR.posInf => NpR.posInf
  | NpR.negInf => NpR.nan
  | NpR.nan => NpR.nan

/-- Addition of a finite float to a numpy value. -/
noncomputable def npRAddFin (a : ℝ) : NpR → NpR
  | NpR.fin x => NpR.fin (a + x)
  | NpR.posInf => NpR.posInf
  | NpR.negInf => NpR.negInf
  | NpR.nan => NpR.nan

/-- Division of a finite float by a numpy value: finite nonzero
denominators give the quotient, infinite denominators give zero, NaN
propagates. -/
noncomputable def npRDivFin (a : ℝ) : NpR → NpR
  | NpR.fin x => npRDiv a x
  | NpR.posInf => NpR.fin 0
  | NpR.negInf => NpR.fin 0
  | NpR.nan => NpR.nan

/-- Python-level error raised by an operation on plain Python floats. -/
inductive PyError where
  | zeroDivisionError
deriving DecidableEq

/-- Pure Python float division: a zero denominator raises
`ZeroDivisionError` (unlike numpy scalar division, which yields an
infinity with a warning). -/
noncomputable def pyDiv (a b : ℝ) : Except PyError ℝ :=
  if b = 0 then Except.error PyError.zeroDivisionError else Except.ok (a / b)

/-- Embedding of `circle_lateral_correction` (app.py lines 91-110):
`f_2 = ln 2 / (ln 2 + ln(((d/s)^2 + 3) / ((d/s)^2 - 3)))`.  The quotient
`numerator / denominator` at line 108 divides plain Python floats, so a
zero denominator raises `ZeroDivisionError`, which propagates; `np.log`
and the final division involve the numpy scalar `ln_2 = np.log(2)` and
follow numpy semantics (NaN and infinities, no exception).  The function
performs no domain check of its own.  `d / s` at line 105 is also Python
division; every theorem below assumes `s > 0`, the range of the probe
spacings the application offers. -/
noncomputable def circle_lateral_correction (d s : ℝ) : Except PyError NpR :=
  let x := (d / s) ^ 2
  (pyDiv (x + 3) (x - 3)).map (fun q =>
    npRDivFin (Real.log 2) (npRAddFin (Real.log 2) (npRLog (NpR.fin q))))

/-- Modelled from the spec: `lateralCorrectionCircle` of spec section 4.6,
which requires `(d/s)^2 > 3` and otherwise fails with
`ArithmeticDomainError`; for comparison with `circle_lateral_correction`. -/
noncomputable def specLateralCorrectionCircle (d s : ℝ) :
    Except ArithmeticDomainError ℝ :=
  if 3 < (d / s) ^ 2 then
    Except.ok (Real.log 2
      / (Real.log 2 + Real.log (((d / s) ^ 2 + 3) / ((d / s) ^ 2 - 3))))
  else Except.error ArithmeticDomainError.circularGeometryDomain

/-- C4 counterexample: at `d = 1`, `s = 1` (so `(d/s)^2 = 1 ≤ 3`) the code
returns the numpy value NaN — it raises no `ArithmeticDomainError` — while
the spec-modelled correction fails. -/
theorem c4_counterexample :
    circle_lateral_correction 1 1 = Except.ok NpR.nan ∧
      specLateralCorrectionCircle 1 1
        = Except.error ArithmeticDomainError.circularGeometryDomain := by
  constructor
  · simp only [circle_lateral_correction]
    rw [show ((1 : ℝ) / 1) ^ 2 = 1 by norm_num]
    rw [show pyDiv ((1 : ℝ) + 3) (1 - 3) = Except.ok (-2) by
      rw [pyDiv, if_neg (by norm_num : ¬((1 : ℝ) - 3 = 0))]
      norm_num]
    simp only [Except.map]
    rw [show npRLog (NpR.fin (-2)) = NpR.nan by
      simp only [npRLog]
      rw [if_neg (by norm_num), if_neg (by norm_num)]]
    rfl
  · rw [specLateralCorrectionCircle, if_neg (by norm_num)]

/-- C4 amended: `circle_lateral_correction` raises no
`ArithmeticDomainError`: for `(d/s)^2 < 3` it raises nothing and returns
NaN (negative log argument, warning only), for `(d/s)^2 = 3` the plain
Python float division `numerator / denominator` raises
`ZeroDivisionError`, and for `(d/s)^2 > 3` it returns the finite factor
`ln 2 / (ln 2 + ln(((d/s)^2 + 3) / ((d/s)^2 - 3)))`, which is strictly
positive. -/
theorem c4_circle_lateral (d s : ℝ) (_hs : 0 < s) :
    ((d / s) ^ 2 < 3 → circle_lateral_correction d s = Except.ok NpR.nan) ∧
    ((d / s) ^ 2 = 3 →
      circle_lateral_correction d s
        = Except.error PyError.zeroDivisionError) ∧
    (3 < (d / s) ^ 2 →
      circle_lateral_correction d s
        = Except.ok (NpR.fin (Real.log 2
            / (Real.log 2
              + Real.log (((d / s) ^ 2 + 3) / ((d / s) ^ 2 - 3))))) ∧
      0 < Real.log 2
            / (Real.log 2
              + Real.log (((d / s) ^ 2 + 3) / ((d / s) ^ 2 - 3)))) := by
  have hx0 : 0 ≤ (d / s) ^ 2 := sq_nonneg _
  refine ⟨?_, ?_, ?_⟩
  · intro hlt
    simp only [circle_lateral_correction]
    rw [show pyDiv ((d / s) ^ 2 + 3) ((d / s) ^ 2 - 3)
        = Except.ok (((d / s) ^ 2 + 3) / ((d / s) ^ 2 - 3)) by
      rw [pyDiv, if_neg (by intro hc; linarith [hc])]]
    have hq : ((d / s) ^ 2 + 3) / ((d / s) ^ 2 - 3) < 0 :=
      div_neg_of_pos_of_neg (by linarith) (by linarith)
    simp only [Except.map]
    rw [show npRLog (NpR.fin (((d / s) ^ 2 + 3) / ((d / s) ^ 2 - 3)))
        = NpR.nan by
      simp only [npRLog]
      rw [if_neg (by linarith), if_neg (by intro hc; linarith [hc.symm ▸ hq])]]
    rfl
  · intro heq
    simp only [circle_lateral_correction]
    rw [show pyDiv ((d / s) ^ 2 + 3) ((d / s) ^ 2 - 3)
        = Except.error PyError.zeroDivisionError by
      rw [pyDiv, if_pos (by linarith)]]
    rfl
  · intro hgt
    have hden : (0 : ℝ) < (d / s) ^ 2 - 3 := by linarith
    have hq1 : 1 < ((d / s) ^ 2 + 3) / ((d / s) ^ 2 - 3) :=
      (one_lt_div hden).mpr (by linarith)
    have hlog2 : (0 : ℝ) < Real.log 2 := Real.log_pos one_lt_two
    have hlogq : 0 < Real.log (((d / s) ^ 2 + 3) / ((d / s) ^ 2 - 3)) :=
      Real.log_pos hq1
    have hsum : (0 : ℝ) < Real.log 2
        + Real.log (((d / s) ^ 2 + 3) / ((d / s) ^ 2 - 3)) := by linarith
    constructor
    · simp only [circle_lateral_correction]
      rw [show pyDiv ((d / s) ^ 2 + 3) ((d / s) ^ 2 - 3)
          = Except.ok (((d / s) ^ 2 + 3) / ((d / s) ^ 2 - 3)) by
        rw [pyDiv, if_neg (by linarith)]]
      simp only [Except.map]
      rw [show npRLog (NpR.fin (((d / s) ^ 2 + 3) / ((d / s) ^ 2 - 3)))
          = NpR.fin (Real.log (((d / s) ^ 2 + 3) / ((d / s) ^ 2 - 3))) by
        simp only [npRLog]
        rw [if_pos (by linarith)]]
      simp only [npRAddFin, npRDivFin]
      rw [npRDiv, if_neg (by linarith)]
    · exact div_pos hlog2 hsum

/-- Witness for the amended C4: a 4-unit diameter at unit probe spacing
satisfies `(d/s)^2 = 16 > 3` and yields the positive finite factor; at
equal diameter and spacing `(d/s)^2 = 1 < 3` the result is NaN, raised
from no error. -/
theorem c4_circle_lateral_witness :
    (0 : ℝ) < 1 ∧ 3 < ((4 : ℝ) / 1) ^ 2 ∧
      circle_lateral_correction 4 1
        = Except.ok (NpR.fin (Real.log 2
            / (Real.log 2
              + Real.log ((((4 : ℝ) / 1) ^ 2 + 3) / (((4 : ℝ) / 1) ^ 2 - 3))))) :=
  ⟨by norm_num, by norm_num,
    ((c4_circle_lateral 4 1 (by norm_num)).2.2 (by norm_num)).1⟩

/-- Outcome of the safety-gated start of a test run. -/
inductive RunOutcome where
  | proceeded
  | aborted
  | awaiting
deriving DecidableEq

/-- Embedding of the manual-mode safety flow (app.py lines 593-625).  When
the requested level passes `_check_safety` (default threshold 1 A) the run
is stamped safe and the waveform is generated.  Otherwise the code waits
on the override text input: `None` (no response yet) leaves the run
pending; a response that lowers to the single letter y stamps the run safe
and generates the waveform; any other response stops the run and reports
the abort.  Measurement (`Test_Initiation`, app.py lines 629-633) starts
only for a run stamped safe. -/
def manual_safety_flow (curr_value : ℚ) (magExp : ℤ)
    (response : Option (List Char)) : RunOutcome :=
  if check_safety curr_value magExp 1 then RunOutcome.proceeded
  else
    match response with
    | none => RunOutcome.awaiting
    | some r =>
      if r.map Char.toLower = ['y'] then RunOutcome.proceeded
      else RunOutcome.aborted

/-- The preset auto-mode current-level lists (app.py lines 515-528):
semiconductor, high-resistance semiconductor, metal, unknown. -/
def autoCurrLevels : List (List ℚ) :=
  [[5, 10, 30, 50, 70, 90, 100],
   [1/10, 1/2, 7/10, 1, 3, 5, 7],
   [150, 200, 250, 300, 350, 400],
   [5, 30, 50, 70, 100, 200, 400]]

theorem check_safety_small (v : ℚ) (h : qabs v ≤ 400) :
    check_safety v (-6) 1 = true := by
  have hlt : ¬ (qabs (v * pow10 (-6)) ≥ 1) := by
    intro hge
    rw [qabs_eq_abs] at hge h
    have hp : pow10 (-6) = 1 / (10 : ℚ) ^ 6 := rfl
    rw [hp, abs_mul, abs_of_pos (by norm_num : (0 : ℚ) < 1 / 10 ^ 6)] at hge
    have hle : |v| * (1 / (10 : ℚ) ^ 6) ≤ 400 * (1 / 10 ^ 6) :=
      mul_le_mul_of_nonneg_right h (by norm_num)
    have h400 : (400 : ℚ) * (1 / 10 ^ 6) < 1 := by norm_num
    linarith
  simp only [check_safety]
  rw [if_neg hlt]

/-- C5 counterexample: for an unsafe level (value 1 at magnitude 0, scaled
magnitude `1 ≥ threshold 1`), the absence of a response leaves the run
pending — it does not halt the run with a reported abort. -/
theorem c5_counterexample :
    check_safety 1 0 1 = false ∧
      manual_safety_flow 1 0 none = RunOutcome.awaiting ∧
      manual_safety_flow 1 0 none ≠ RunOutcome.aborted := by
  have h0 : pow10 0 = (10 : ℚ) ^ (0 : ℕ) := rfl
  have hc : check_safety 1 0 1 = false := by
    rw [check_safety]
    rw [if_pos]
    rw [qabs_eq_abs, h0]
    norm_num
  have hnone : manual_safety_flow 1 0 none = RunOutcome.awaiting := by
    unfold manual_safety_flow
    rw [hc]
    rfl
  refine ⟨hc, hnone, ?_⟩
  rw [hnone]
  simp

/-- C5 amended: the safety check gates every manual run before scaling; a
run proceeds only when the check passes or an explicitly affirmative
response was given (never an implicit default); an explicit
non-affirmative response halts the run with a reported abort; no response
leaves the run blocked awaiting a decision — measurement never starts —
rather than reporting an abort.  Every preset auto-mode current level
passes the safety check invoked by `generate_square_wave` on the unscaled
high and low values (magnitude `-6`, threshold 1 A). -/
theorem c5_safety_gate :
    (∀ (v : ℚ) (e : ℤ) (resp : Option (List Char)),
      manual_safety_flow v e resp = RunOutcome.proceeded →
      check_safety v e 1 = true ∨
        ∃ r, resp = some r ∧ r.map Char.toLower = ['y']) ∧
    (∀ (v : ℚ) (e : ℤ), check_safety v e 1 = false →
      manual_safety_flow v e none = RunOutcome.awaiting) ∧
    (∀ (v : ℚ) (e : ℤ) (r : List Char), check_safety v e 1 = false →
      r.map Char.toLower ≠ ['y'] →
      manual_safety_flow v e (some r) = RunOutcome.aborted) ∧
    (∀ levels, levels ∈ autoCurrLevels → ∀ v, v ∈ levels →
      generate_checks v (-v) (-6) 1 = (true, true)) := by
  refine ⟨?_, ?_, ?_, ?_⟩
  · intro v e resp hp
    by_cases hc : check_safety v e 1 = true
    · exact Or.inl hc
    · right
      unfold manual_safety_flow at hp
      rw [if_neg hc] at hp
      match resp with
      | none => exact absurd hp (by simp)
      | some r =>
        refine ⟨r, rfl, ?_⟩
        by_contra hy
        have hp2 : (if r.map Char.toLower = ['y'] then RunOutcome.proceeded
            else RunOutcome.aborted) = RunOutcome.proceeded := hp
        rw [if_neg hy] at hp2
        exact absurd hp2 (by simp)
  · intro v e hc
    unfold manual_safety_flow
    rw [hc]
    rfl
  · intro v e r hc hy
    unfold manual_safety_flow
    rw [hc]
    simp only [Bool.false_eq_true, if_false]
    rw [if_neg hy]
  · intro levels hlev v hv
    have hb : qabs v ≤ 400 ∧ qabs (-v) ≤ 400 := by
      fin_cases hlev <;> fin_cases hv <;> norm_num [qabs]
    rw [generate_checks, check_safety_small v hb.1,
      check_safety_small (-v) hb.2]

/-- Witness for the amended C5: an unsafe level with the explicit response
n aborts the run, and the first preset auto level passes the generator
checks. -/
theorem c5_safety_gate_witness :
    check_safety 1 0 1 = false ∧
      (['n'] : List Char).map Char.toLower ≠ ['y'] ∧
      manual_safety_flow 1 0 (some ['n']) = RunOutcome.aborted ∧
      [(5 : ℚ), 10, 30, 50, 70, 90, 100] ∈ autoCurrLevels ∧
      (5 : ℚ) ∈ [(5 : ℚ), 10, 30, 50, 70, 90, 100] ∧
      generate_checks 5 (-5) (-6) 1 = (true, true) := by
  have h0 : pow10 0 = (10 : ℚ) ^ (0 : ℕ) := rfl
  have hc : check_safety 1 0 1 = false := by
    rw [check_safety]
    rw [if_pos]
    rw [qabs_eq_abs, h0]
    norm_num
  have hy : (['n'] : List Char).map Char.toLower ≠ ['y'] := by decide
  have hm : [(5 : ℚ), 10, 30, 50, 70, 90, 100] ∈ autoCurrLevels := by
    simp [autoCurrLevels]
  have hv : (5 : ℚ) ∈ [(5 : ℚ), 10, 30, 50, 70, 90, 100] := by simp
  exact ⟨hc, hy, c5_safety_gate.2.2.1 1 0 ['n'] hc hy,
    hm, hv, c5_safety_gate.2.2.2 _ hm 5 hv⟩

/-- Surface classification labels (app.py lines 745-755). -/
inductive SurfaceType where
  | metalLike
  | semiconductorLike
  | insulatorLike
deriving DecidableEq

/-- Embedding of the surface-classification branch chain (app.py lines
745-755), shown for an auto-mode result on an unknown surface:
`Corr_Rsheet < 5` gives metal-like; otherwise
`Corr_Rsheet >= 5 and Corr_Rsheet <= 10**6` gives semiconductor-like;
otherwise `test_invalid != None or Corr_Rsheet >= 10**6` gives
insulator-like.  The chain is if/elif with no final else; `none` models
the fall-through (unreachable for rational inputs). -/
def classify_surface (correctedR : ℚ) (invalid : Bool) : Option SurfaceType :=
  if correctedR < 5 then some SurfaceType.metalLike
  else if 5 ≤ correctedR ∧ correctedR ≤ 10 ^ 6 then
    some SurfaceType.semiconductorLike
  else if invalid = true ∨ 10 ^ 6 ≤ correctedR then
    some SurfaceType.insulatorLike
  else none

/-- C6 counterexample: an overall-invalid run with corrected value 100
(inside `[5, 1e6]`) is classified semiconductor-like by the branch chain,
not insulator-like — the invalid flag is only consulted after both
numeric ranges fail. -/
theorem c6_counterexample :
    classify_surface 100 true = some SurfaceType.semiconductorLike ∧
      classify_surface 100 true ≠ some SurfaceType.insulatorLike := by
  have h : classify_surface 100 true = some SurfaceType.semiconductorLike := by
    rw [classify_surface, if_neg (by norm_num), if_pos (by norm_num)]
  exact ⟨h, by rw [h]; simp⟩

/-- C6 amended: `correctedR < 5` classifies metal-like,
`5 ≤ correctedR ≤ 1e6` semiconductor-like, and `correctedR > 1e6`
insulator-like, in every case regardless of the overall-invalid flag; the
flag reaches the insulator branch only after both numeric ranges fail.
Classification is informational: it is a pure read of the result. -/
theorem c6_classification (r : ℚ) (invalid : Bool) :
    (r < 5 → classify_surface r invalid = some SurfaceType.metalLike) ∧
    (5 ≤ r → r ≤ 10 ^ 6 →
      classify_surface r invalid = some SurfaceType.semiconductorLike) ∧
    (10 ^ 6 < r →
      classify_surface r invalid = some SurfaceType.insulatorLike) := by
  refine ⟨?_, ?_, ?_⟩
  · intro h
    rw [classify_surface, if_pos h]
  · intro h1 h2
    rw [classify_surface, if_neg (by linarith), if_pos ⟨h1, h2⟩]
  · intro h
    rw [classify_surface, if_neg (by linarith),
      if_neg (by rintro ⟨-, h2⟩; linarith), if_pos (Or.inr (le_of_lt h))]

/-- Witness for the amended C6 at the spec example `2e6` (insulator-like)
with the invalid flag clear. -/
theorem c6_classification_witness :
    (10 ^ 6 : ℚ) < 2000000 ∧
      classify_surface 2000000 false = some SurfaceType.insulatorLike :=
  ⟨by norm_num, (c6_classification 2000000 false).2.2 (by norm_num)⟩

/-- Embedding of `thickness_correction` (app.py lines 71-89):
`ln 2 / ln(sinh(t/s) / sinh(t/(2s)))`. -/
noncomputable def thickness_correction (t s : ℝ) : ℝ :=
  Real.log 2 / Real.log (Real.sinh (t / s) / Real.sinh (t / (2 * s)))

/-- Embedding of the auto-mode corrected sheet resistance (app.py lines
697-713): `Avg_V/I_filtered = np.mean(remove_outliers_amd(Cal_V/I))`, the
thickness factor computed from the estimated thickness in μm (converted
by `1e-3`) or `1` when the thickness is unknown, and
`Corr_Rsheet = Avg_V/I_filtered * π/ln 2 * thicknessComp * lateralComp`. -/
noncomputable def auto_corr_rsheet (calVIList : List ℚ)
    (est_thickness : Option ℝ) (spacing lateralComp : ℝ) : ℝ :=
  let filtered := remove_outliers_amd calVIList (8/5)
  let avg : ℚ := qmean filtered
  let thicknessComp : ℝ :=
    match est_thickness with
    | some t => thickness_correction (t * (1/1000)) spacing
    | none => 1
  (avg : ℝ) * (Real.pi / Real.log 2) * thicknessComp * lateralComp

/-- Embedding of the manual-mode corrected sheet resistance (app.py lines
656-671): the whole correction block sits under the
`if curr_adv != True:` gate of line 657, so a manual run with the
advanced-settings toggle on computes no corrected value at all (`none`);
otherwise the single-level ratio takes the place of the filtered mean. -/
noncomputable def manual_corr_rsheet (curr_adv : Bool) (calVI : ℝ)
    (est_thickness : Option ℝ) (spacing lateralComp : ℝ) : Option ℝ :=
  if curr_adv = true then none
  else
    let thicknessComp : ℝ :=
      match est_thickness with
      | some t => thickness_correction (t * (1/1000)) spacing
      | none => 1
    some (calVI * (Real.pi / Real.log 2) * thicknessComp * lateralComp)

/-- C9: whenever a corrected sheet resistance is produced it equals
`ratio * (π/ln 2) * thicknessComp * lateralComp`: in multi-level (auto)
mode with the ratio the mean of the ratios surviving the outlier filter,
in manual mode (advanced settings off) with the single-level ratio; the
thickness factor is `1` whenever the estimated thickness is unknown and
`thickness_correction` of the μm-converted thickness otherwise; a manual
run with advanced settings on produces no corrected value. -/
theorem c9_corrected_rsheet :
    (∀ (calVIList : List ℚ) (s l : ℝ),
      auto_corr_rsheet calVIList none s l
        = ((qmean (remove_outliers_amd calVIList (8/5)) : ℚ) : ℝ)
            * (Real.pi / Real.log 2) * 1 * l) ∧
    (∀ (calVIList : List ℚ) (t s l : ℝ),
      auto_corr_rsheet calVIList (some t) s l
        = ((qmean (remove_outliers_amd calVIList (8/5)) : ℚ) : ℝ)
            * (Real.pi / Real.log 2)
            * thickness_correction (t * (1/1000)) s * l) ∧
    (∀ (v s l : ℝ),
      manual_corr_rsheet false v none s l
        = some (v * (Real.pi / Real.log 2) * 1 * l)) ∧
    (∀ (v t s l : ℝ),
      manual_corr_rsheet false v (some t) s l
        = some (v * (Real.pi / Real.log 2)
            * thickness_correction (t * (1/1000)) s * l)) ∧
    (∀ (v : ℝ) (et : Option ℝ) (s l : ℝ),
      manual_corr_rsheet true v et s l = none) :=
  ⟨fun _ _ _ => rfl, fun _ _ _ _ => rfl, fun _ _ _ => rfl,
    fun _ _ _ _ => rfl, fun _ _ _ _ => rfl⟩

end SMU
